import Mathlib

/-!
Verification of the solar-system renderer: shallow embedding of the camera
control module (`src/camera/camera_control.rs`), the matrix utilities
(`src/matrix.rs`) and the orbital hierarchy update
(`src/solar_object/render_solar_object.rs`) over exact real arithmetic,
together with proofs of the specified properties.

`f32`/`f64` values are modelled as real numbers, `Instant`/`Duration` as real
timestamps/differences (the code only ever subtracts monotone timestamps).
-/

open Real

noncomputable section

/-! ## Vectors (cgmath `Vector3<f32>`) -/

/-- Model of `cgmath::Vector3<f32>` over exact reals. -/
@[ext]
structure Vec3 where
  x : ℝ
  y : ℝ
  z : ℝ

namespace Vec3

/-- Componentwise addition (`Vector3::add`). -/
def add (a b : Vec3) : Vec3 := ⟨a.x + b.x, a.y + b.y, a.z + b.z⟩

instance : Add Vec3 := ⟨Vec3.add⟩

/-- Scalar multiplication (`Vector3 * scalar`). -/
def smul (c : ℝ) (v : Vec3) : Vec3 := ⟨c * v.x, c * v.y, c * v.z⟩

instance : SMul ℝ Vec3 := ⟨Vec3.smul⟩

/-- Dot product (`InnerSpace::dot`). -/
def dot (a b : Vec3) : ℝ := a.x * b.x + a.y * b.y + a.z * b.z

/-- Cross product (`Vector3::cross`). -/
def cross (a b : Vec3) : Vec3 :=
  ⟨a.y * b.z - a.z * b.y, a.z * b.x - a.x * b.z, a.x * b.y - a.y * b.x⟩

/-- Squared magnitude (`InnerSpace::magnitude2`). -/
def normSq (v : Vec3) : ℝ := v.x * v.x + v.y * v.y + v.z * v.z

/-- Magnitude (`InnerSpace::magnitude`). -/
def norm (v : Vec3) : ℝ := Real.sqrt (normSq v)

/-- Normalization, `v * (1 / v.magnitude())` (cgmath `InnerSpace::normalize`). -/
def normalize (v : Vec3) : Vec3 := (1 / norm v) • v

@[simp] lemma add_def (a b : Vec3) :
    a + b = ⟨a.x + b.x, a.y + b.y, a.z + b.z⟩ := rfl

@[simp] lemma smul_def (c : ℝ) (v : Vec3) :
    c • v = ⟨c * v.x, c * v.y, c * v.z⟩ := rfl

@[simp] lemma smul_x (c : ℝ) (v : Vec3) : (c • v).x = c * v.x := rfl
@[simp] lemma smul_y (c : ℝ) (v : Vec3) : (c • v).y = c * v.y := rfl
@[simp] lemma smul_z (c : ℝ) (v : Vec3) : (c • v).z = c * v.z := rfl

end Vec3

/-- World up direction, `UP = Vector3::new(0.0, 1.0, 0.0)` in `camera_control.rs`. -/
def UP : Vec3 := ⟨0, 1, 0⟩

/-- The x unit vector, `Vector3::unit_x()`. -/
def unitX : Vec3 := ⟨1, 0, 0⟩

/-! ## 3×3 matrices (`Matrix3x3` in `src/matrix.rs`, cgmath `Matrix3<f32>`)

The Rust code stores matrices in column-major `[[f32; N]; N]` arrays; we store
the mathematical entry `a i j` (row `i`, column `j`), so `data[j][i] = a i j`.
-/

/-- Model of a 3×3 real matrix; field `aij` is the entry in row `i`, column `j`. -/
@[ext]
structure Mat3 where
  a00 : ℝ
  a01 : ℝ
  a02 : ℝ
  a10 : ℝ
  a11 : ℝ
  a12 : ℝ
  a20 : ℝ
  a21 : ℝ
  a22 : ℝ

namespace Mat3

/-- Identity matrix (`Matrix3::identity`). -/
def identity : Mat3 := ⟨1, 0, 0, 0, 1, 0, 0, 0, 1⟩

/-- Matrix product (`Mul for Matrix3x3` delegating to cgmath `Matrix3 * Matrix3`). -/
def mul (m n : Mat3) : Mat3 :=
  ⟨m.a00 * n.a00 + m.a01 * n.a10 + m.a02 * n.a20,
   m.a00 * n.a01 + m.a01 * n.a11 + m.a02 * n.a21,
   m.a00 * n.a02 + m.a01 * n.a12 + m.a02 * n.a22,
   m.a10 * n.a00 + m.a11 * n.a10 + m.a12 * n.a20,
   m.a10 * n.a01 + m.a11 * n.a11 + m.a12 * n.a21,
   m.a10 * n.a02 + m.a11 * n.a12 + m.a12 * n.a22,
   m.a20 * n.a00 + m.a21 * n.a10 + m.a22 * n.a20,
   m.a20 * n.a01 + m.a21 * n.a11 + m.a22 * n.a21,
   m.a20 * n.a02 + m.a21 * n.a12 + m.a22 * n.a22⟩

instance : Mul Mat3 := ⟨Mat3.mul⟩

@[simp] lemma mul_def (m n : Mat3) : m * n = Mat3.mul m n := rfl

/-- Matrix-vector application (cgmath `Matrix3 * Vector3`). -/
def mulVec (m : Mat3) (v : Vec3) : Vec3 :=
  ⟨m.a00 * v.x + m.a01 * v.y + m.a02 * v.z,
   m.a10 * v.x + m.a11 * v.y + m.a12 * v.z,
   m.a20 * v.x + m.a21 * v.y + m.a22 * v.z⟩

instance : HMul Mat3 Vec3 Vec3 := ⟨Mat3.mulVec⟩

@[simp] lemma hmul_vec_def (m : Mat3) (v : Vec3) : m * v = Mat3.mulVec m v := rfl

/-- Transpose (cgmath `Matrix::transpose`). -/
def transpose (m : Mat3) : Mat3 :=
  ⟨m.a00, m.a10, m.a20, m.a01, m.a11, m.a21, m.a02, m.a12, m.a22⟩

/-- Determinant (cgmath `SquareMatrix::determinant` for `Matrix3`). -/
def det (m : Mat3) : ℝ :=
  m.a00 * (m.a11 * m.a22 - m.a12 * m.a21)
    - m.a01 * (m.a10 * m.a22 - m.a12 * m.a20)
    + m.a02 * (m.a10 * m.a21 - m.a11 * m.a20)

/-- Matrix inverse (cgmath `SquareMatrix::invert` for `Matrix3`): `None` exactly
when the determinant is zero, otherwise the adjugate divided by the determinant. -/
def invert (m : Mat3) : Option Mat3 :=
  if det m = 0 then none
  else
    some
      ⟨(m.a11 * m.a22 - m.a12 * m.a21) / det m,
       (m.a02 * m.a21 - m.a01 * m.a22) / det m,
       (m.a01 * m.a12 - m.a02 * m.a11) / det m,
       (m.a12 * m.a20 - m.a10 * m.a22) / det m,
       (m.a00 * m.a22 - m.a02 * m.a20) / det m,
       (m.a02 * m.a10 - m.a00 * m.a12) / det m,
       (m.a10 * m.a21 - m.a11 * m.a20) / det m,
       (m.a01 * m.a20 - m.a00 * m.a21) / det m,
       (m.a00 * m.a11 - m.a01 * m.a10) / det m⟩

/-- Nonuniform scaling matrix (`Matrix3x3::scale` in `src/matrix.rs`). -/
def scaleV (s : Vec3) : Mat3 := ⟨s.x, 0, 0, 0, s.y, 0, 0, 0, s.z⟩

/-- Rotation about the y axis (cgmath `Matrix3::from_angle_y`). -/
def fromAngleY (θ : ℝ) : Mat3 :=
  ⟨Real.cos θ, 0, Real.sin θ,
   0, 1, 0,
   -Real.sin θ, 0, Real.cos θ⟩

/-- Rotation about an arbitrary axis (cgmath `Matrix3::from_axis_angle`);
the caller is responsible for normalizing the axis. -/
def fromAxisAngle (k : Vec3) (θ : ℝ) : Mat3 :=
  ⟨(1 - Real.cos θ) * k.x * k.x + Real.cos θ,
   (1 - Real.cos θ) * k.x * k.y - Real.sin θ * k.z,
   (1 - Real.cos θ) * k.x * k.z + Real.sin θ * k.y,
   (1 - Real.cos θ) * k.x * k.y + Real.sin θ * k.z,
   (1 - Real.cos θ) * k.y * k.y + Real.cos θ,
   (1 - Real.cos θ) * k.y * k.z - Real.sin θ * k.x,
   (1 - Real.cos θ) * k.x * k.z - Real.sin θ * k.y,
   (1 - Real.cos θ) * k.y * k.z + Real.sin θ * k.x,
   (1 - Real.cos θ) * k.z * k.z + Real.cos θ⟩

end Mat3

/-! ## 4×4 matrices (`Matrix4x4` in `src/matrix.rs`, cgmath `Matrix4<f32>`) -/

/-- Model of `Matrix4x4`; field `aij` is the entry in row `i`, column `j`
(the Rust column-major `data[j][i]`). -/
@[ext]
structure Mat4 where
  a00 : ℝ
  a01 : ℝ
  a02 : ℝ
  a03 : ℝ
  a10 : ℝ
  a11 : ℝ
  a12 : ℝ
  a13 : ℝ
  a20 : ℝ
  a21 : ℝ
  a22 : ℝ
  a23 : ℝ
  a30 : ℝ
  a31 : ℝ
  a32 : ℝ
  a33 : ℝ

namespace Mat4

/-- Identity matrix (`Matrix4x4::identity`). -/
def identity : Mat4 :=
  ⟨1, 0, 0, 0,
   0, 1, 0, 0,
   0, 0, 1, 0,
   0, 0, 0, 1⟩

/-- Matrix product (`Mul for Matrix4x4`). -/
def mul (m n : Mat4) : Mat4 :=
  ⟨m.a00 * n.a00 + m.a01 * n.a10 + m.a02 * n.a20 + m.a03 * n.a30,
   m.a00 * n.a01 + m.a01 * n.a11 + m.a02 * n.a21 + m.a03 * n.a31,
   m.a00 * n.a02 + m.a01 * n.a12 + m.a02 * n.a22 + m.a03 * n.a32,
   m.a00 * n.a03 + m.a01 * n.a13 + m.a02 * n.a23 + m.a03 * n.a33,
   m.a10 * n.a00 + m.a11 * n.a10 + m.a12 * n.a20 + m.a13 * n.a30,
   m.a10 * n.a01 + m.a11 * n.a11 + m.a12 * n.a21 + m.a13 * n.a31,
   m.a10 * n.a02 + m.a11 * n.a12 + m.a12 * n.a22 + m.a13 * n.a32,
   m.a10 * n.a03 + m.a11 * n.a13 + m.a12 * n.a23 + m.a13 * n.a33,
   m.a20 * n.a00 + m.a21 * n.a10 + m.a22 * n.a20 + m.a23 * n.a30,
   m.a20 * n.a01 + m.a21 * n.a11 + m.a22 * n.a21 + m.a23 * n.a31,
   m.a20 * n.a02 + m.a21 * n.a12 + m.a22 * n.a22 + m.a23 * n.a32,
   m.a20 * n.a03 + m.a21 * n.a13 + m.a22 * n.a23 + m.a23 * n.a33,
   m.a30 * n.a00 + m.a31 * n.a10 + m.a32 * n.a20 + m.a33 * n.a30,
   m.a30 * n.a01 + m.a31 * n.a11 + m.a32 * n.a21 + m.a33 * n.a31,
   m.a30 * n.a02 + m.a31 * n.a12 + m.a32 * n.a22 + m.a33 * n.a32,
   m.a30 * n.a03 + m.a31 * n.a13 + m.a32 * n.a23 + m.a33 * n.a33⟩

instance : Mul Mat4 := ⟨Mat4.mul⟩

@[simp] lemma mulM_def (m n : Mat4) : m * n = Mat4.mul m n := rfl

/-- Translation matrix (`Matrix4x4::translate`, cgmath `Matrix4::from_translation`). -/
def translate (t : Vec3) : Mat4 :=
  ⟨1, 0, 0, t.x,
   0, 1, 0, t.y,
   0, 0, 1, t.z,
   0, 0, 0, 1⟩

/-- Nonuniform scaling matrix (`Matrix4x4::scale`, cgmath `from_nonuniform_scale`). -/
def scaleV (s : Vec3) : Mat4 :=
  ⟨s.x, 0, 0, 0,
   0, s.y, 0, 0,
   0, 0, s.z, 0,
   0, 0, 0, 1⟩

end Mat4

/-- Truncation toward zero as an integer: model of Rust `f32` `trunc`
(used implicitly by the float remainder operator `%`). -/
def rustTruncZ (x : ℝ) : ℤ := if 0 ≤ x then ⌊x⌋ else ⌈x⌉

/-- Rust float remainder `a % b = a - b * trunc(a / b)` (sign follows `a`). -/
def rustRem (a b : ℝ) : ℝ := a - b * (rustTruncZ (a / b) : ℝ)

namespace Mat4

/-- Axis-angle rotation matrix entries (cgmath `Matrix4::from_axis_angle`):
the upper 3×3 Rodrigues block with an identity last row and column. -/
def fromAxisAngle (k : Vec3) (θ : ℝ) : Mat4 :=
  ⟨(1 - Real.cos θ) * k.x * k.x + Real.cos θ,
   (1 - Real.cos θ) * k.x * k.y - Real.sin θ * k.z,
   (1 - Real.cos θ) * k.x * k.z + Real.sin θ * k.y,
   0,
   (1 - Real.cos θ) * k.x * k.y + Real.sin θ * k.z,
   (1 - Real.cos θ) * k.y * k.y + Real.cos θ,
   (1 - Real.cos θ) * k.y * k.z - Real.sin θ * k.x,
   0,
   (1 - Real.cos θ) * k.x * k.z - Real.sin θ * k.y,
   (1 - Real.cos θ) * k.y * k.z + Real.sin θ * k.x,
   (1 - Real.cos θ) * k.z * k.z + Real.cos θ,
   0,
   0, 0, 0, 1⟩

/-- `Matrix4x4::rotate(axis, angle)` from `src/matrix.rs`: normalizes the axis
and reduces the angle with the float remainder `angle % (2π)` before building
the axis-angle rotation. -/
def rotate (axis : Vec3) (angle : ℝ) : Mat4 :=
  fromAxisAngle (Vec3.normalize axis) (rustRem angle (2 * π))

/-- Upper-left 3×3 block of a 4×4 matrix, as extracted entry by entry in
`Matrix3x3::to_mat3_inverse_transpose` (`source.data[j][i]` for `i, j < 3`). -/
def upper3 (m : Mat4) : Mat3 :=
  ⟨m.a00, m.a01, m.a02, m.a10, m.a11, m.a12, m.a20, m.a21, m.a22⟩

end Mat4

/-- `Matrix3x3::to_mat3_inverse_transpose` from `src/matrix.rs`: take the
upper 3×3 block, invert it, transpose, and fall back to the identity when the
block is not invertible (`unwrap_or(Matrix3::identity())`). -/
def Matrix3x3.to_mat3_inverse_transpose (source : Mat4) : Mat3 :=
  ((Mat4.upper3 source).invert.map Mat3.transpose).getD Mat3.identity

/-! ### Basic matrix lemmas -/

lemma Mat4.identity_mulM (m : Mat4) : Mat4.mul Mat4.identity m = m := by
  simp only [Mat4.mul, Mat4.identity]
  ext <;> ring

lemma Mat4.mul_identityM (m : Mat4) : Mat4.mul m Mat4.identity = m := by
  simp only [Mat4.mul, Mat4.identity]
  ext <;> ring

lemma Mat3.id_mul (m : Mat3) : Mat3.identity * m = m := by
  simp only [Mat3.mul_def, Mat3.mul, Mat3.identity]
  ext <;> ring

lemma Mat3.mul_mulVec (m n : Mat3) (v : Vec3) :
    (m * n) * v = m * (n * v) := by
  simp only [Mat3.mul_def, Mat3.hmul_vec_def, Mat3.mul, Mat3.mulVec]
  ext <;> ring

/-- Rust remainder of `0` is `0` for every modulus. -/
lemma rustRem_zero (b : ℝ) : rustRem 0 b = 0 := by
  simp [rustRem, rustTruncZ]

/-- Rotating by a zero angle yields the identity, for any (even degenerate) axis. -/
lemma Mat4.fromAxisAngle_zero (k : Vec3) : Mat4.fromAxisAngle k 0 = Mat4.identity := by
  simp [Mat4.fromAxisAngle, Mat4.identity]

lemma Mat4.rotate_zero (axis : Vec3) : Mat4.rotate axis 0 = Mat4.identity := by
  rw [Mat4.rotate, rustRem_zero, Mat4.fromAxisAngle_zero]

lemma Mat4.translate_zero : Mat4.translate ⟨0, 0, 0⟩ = Mat4.identity := rfl

lemma Mat4.scaleV_one : Mat4.scaleV ⟨1, 1, 1⟩ = Mat4.identity := rfl

/-! ## Orbital hierarchy (`src/solar_object/render_solar_object.rs`) -/

/-- `distance_scaling(distance) = (distance / 100000.0).powf(0.6)`. -/
def distance_scaling (distance : ℝ) : ℝ := (distance / 100000) ^ (0.6 : ℝ)

/-- `radius_scaling(radius) = (radius / 10000.0).powf(0.4)`. -/
def radius_scaling (radius : ℝ) : ℝ := (radius / 10000) ^ (0.4 : ℝ)

/-- `time_scaling(time) = time * 10.0`. -/
def time_scaling (time : ℝ) : ℝ := time * 10

/-- The `scale` local of `update_buffers_inner`: uniform scaling by
`radius_scaling(self.radius_km)`. -/
def localScaleM (radius_km : ℝ) : Mat4 :=
  Mat4.scaleV ⟨radius_scaling radius_km, radius_scaling radius_km, radius_scaling radius_km⟩

/-- The `rotate` local of `update_buffers_inner` (the body's spin):
`Matrix4x4::rotate(UP, time_scaling(PI * 2.0 * time / rotation_period_days))`. -/
def spinComponentM (time rotation_period_days : ℝ) : Mat4 :=
  Mat4.rotate UP (time_scaling (π * 2 * time / rotation_period_days))

/-- The `tilt` local of `update_buffers_inner`:
`Matrix4x4::rotate(Vector3::unit_x(), self.tilt)`. -/
def tiltComponentM (tilt : ℝ) : Mat4 := Mat4.rotate unitX tilt

/-- The `translate` local of `update_buffers_inner`: offset along local x by
`distance_scaling(distance) + parent_radius.map(|r| radius_scaling(r) + radius_scaling(radius)).unwrap_or(0)`. -/
def orbitOffsetM (distance_from_parent_km radius_km : ℝ) (parent_radius : Option ℝ) : Mat4 :=
  Mat4.translate
    ⟨distance_scaling distance_from_parent_km +
      ((parent_radius.map fun r => radius_scaling r + radius_scaling radius_km).getD 0),
     0, 0⟩

/-- The `orbit` local of `update_buffers_inner`:
`Matrix4x4::rotate(UP, time_scaling(PI * 2.0 * time / orbital_period_days))` when an
orbital period is present, the identity otherwise. -/
def orbitRevolutionM (orbital_period_days : Option ℝ) (time : ℝ) : Mat4 :=
  match orbital_period_days with
  | some p => Mat4.rotate UP (time_scaling (π * 2 * time / p))
  | none => Mat4.identity

/-- The numeric payload of `SolarObjectInner` (texture dropped: it does not
affect any transform). -/
inductive SolarObjectInner where
  | mk (radius_km distance_from_parent_km : ℝ) (orbital_period_days : Option ℝ)
      (rotation_period_days tilt : ℝ) (children : List SolarObjectInner)

namespace SolarObjectInner

def radius_km : SolarObjectInner → ℝ
  | .mk r _ _ _ _ _ => r

def children : SolarObjectInner → List SolarObjectInner
  | .mk _ _ _ _ _ cs => cs

end SolarObjectInner

/-- The render-side node `RenderSolarObject`: the numeric fields, the children,
the model matrix stored in the node's scene model, and the `inverse_normals`
flag. -/
inductive RenderSolarObject where
  | mk (radius_km distance_from_parent_km : ℝ) (orbital_period_days : Option ℝ)
      (rotation_period_days tilt : ℝ) (children : List RenderSolarObject)
      (scene_model_matrix : Mat4) (inverse_normals : Bool)

namespace RenderSolarObject

def children : RenderSolarObject → List RenderSolarObject
  | .mk _ _ _ _ _ cs _ _ => cs

end RenderSolarObject

mutual

/-- `RenderSolarObject::new_inner`: copies the numeric fields, builds children
with `inverse_normals = false`, and attaches a sphere scene model whose stored
model matrix is the `Matrix4x4::identity()` passed to `create_sphere` at the
call site (the sphere builder stores the given matrix unchanged). -/
def new_inner : SolarObjectInner → Bool → RenderSolarObject
  | .mk r d op rp ti cs, inv =>
    .mk r d op rp ti (new_inner_children cs) Mat4.identity inv

/-- Children construction inside `new_inner`: each child is built with
`inverse_normals = false`. -/
def new_inner_children : List SolarObjectInner → List RenderSolarObject
  | [] => []
  | c :: rest => new_inner c false :: new_inner_children rest

end

/-- `RenderSolarObject::new`: the root is built with `inverse_normals = true`. -/
def RenderSolarObject.new (solar_object : SolarObjectInner) : RenderSolarObject :=
  new_inner solar_object true

/-- The per-node uniform data computed by one step of `update_buffers_inner`:
the model matrix and the three buffers written (`mvp_matrix`, `mv_matrix`,
`normal_matrix`). -/
@[ext]
structure NodeWrite where
  model : Mat4
  mvp : Mat4
  mv : Mat4
  normal : Mat3

mutual

/-- `RenderSolarObject::update_buffers_inner`: computes the node's model matrix
`parent_matrix * orbit * translate * tilt * rotate * scale * scene_model_matrix`,
writes `projection * view * model`, `view * model` and the normal matrix
(inverse-transpose of the model's upper 3×3, negated when `inverse_normals`),
then recurses into the children with parent matrix
`parent_matrix * orbit * translate` and `parent_radius = Some(radius_km)`.
The writes are returned in pre-order. -/
def update_buffers_inner :
    RenderSolarObject → ℝ → Mat4 → Mat4 → Mat4 → Option ℝ → List NodeWrite
  | .mk radius dist op rp ti cs smm inv, time, view, proj, parent_matrix, parent_radius =>
    let model := parent_matrix * orbitRevolutionM op time * orbitOffsetM dist radius parent_radius
      * tiltComponentM ti * spinComponentM time rp * localScaleM radius * smm
    let n0 := Matrix3x3.to_mat3_inverse_transpose model
    let normal := if inv then Mat3.scaleV ⟨-1, -1, -1⟩ * n0 else n0
    ⟨model, proj * view * model, view * model, normal⟩ ::
      update_buffers_children cs time view proj
        (parent_matrix * orbitRevolutionM op time * orbitOffsetM dist radius parent_radius)
        (some radius)

/-- The `for child in &self.children` loop of `update_buffers_inner`. -/
def update_buffers_children :
    List RenderSolarObject → ℝ → Mat4 → Mat4 → Mat4 → Option ℝ → List NodeWrite
  | [], _, _, _, _, _ => []
  | c :: rest, time, view, proj, pm, pr =>
    update_buffers_inner c time view proj pm pr ++
      update_buffers_children rest time view proj pm pr

end

/-- `RenderSolarObject::update_buffers`: starts the recursion with the identity
parent matrix and no parent radius. -/
def update_buffers (n : RenderSolarObject) (time : ℝ) (view proj : Mat4) : List NodeWrite :=
  update_buffers_inner n time view proj Mat4.identity none

/-! ## Camera control (`src/camera/camera_control.rs`)

`Instant` is modelled as a real timestamp; `now - init` is real subtraction
(the code only subtracts monotone timestamps, where `Duration` subtraction
agrees with real subtraction). -/

/-- `ROTATION_MULTIPLIER = PI / 180.0 / 5.0` (1 degree per 5 pixels). -/
def ROTATION_MULTIPLIER : ℝ := π / 180 / 5

/-- `ms_map(duration) = duration.as_secs_f32().powf(5.0)`: the time-to-distance
curve `f(t) = t^5` on (nonnegative) durations. -/
def ms_map (duration : ℝ) : ℝ := duration ^ (5 : ℕ)

/-- The per-axis movement state `Change`. -/
inductive Change where
  | none
  | positive (init last : ℝ)
  | negative (init last : ℝ)

namespace Change

/-- `Change::positive(now)`: start accumulating forward from `now`. -/
def positiveAt (now : ℝ) : Change := .positive now now

/-- `Change::negative(now)`: start accumulating backward from `now`. -/
def negativeAt (now : ℝ) : Change := .negative now now

/-- `Change::take(now, mapper)`: returns the increment
`mapper(now - init) - mapper(last - init)` (negated for the negative phase)
and advances `last` to `now`; returns `0` and stays put when idle.
The Rust method mutates `self` and returns the `f32`; we return the pair. -/
def take (c : Change) (now : ℝ) (mapper : ℝ → ℝ) : ℝ × Change :=
  match c with
  | .none => (0, .none)
  | .positive init last => (mapper (now - init) - mapper (last - init), .positive init now)
  | .negative init last => (-(mapper (now - init) - mapper (last - init)), .negative init now)

end Change

/-- Repeated `take` calls at the given list of timestamps, accumulating the
sum of the returned increments and threading the state. -/
def takeRun (c : Change) (mapper : ℝ → ℝ) : List ℝ → ℝ × Change
  | [] => (0, c)
  | t :: ts =>
    let step := c.take t mapper
    let rest := takeRun step.2 mapper ts
    (step.1 + rest.1, rest.2)

/-- The `Movements` struct: one `Change` per axis. -/
structure Movements where
  forward : Change
  right : Change
  up : Change

/-- `MovementDirection`. -/
inductive MovementDirection where
  | none
  | positive
  | negative

/-- `CameraControl`: world position, view direction and the three movement
integrators. -/
structure CameraControl where
  position : Vec3
  view_direction : Vec3
  movements : Movements

namespace CameraControl

/-- `materialize_movements(now)`: takes all three integrators with `ms_map`
and advances the position by
`view_direction * forward + normalize(cross(view_direction, UP)) * right + UP * up`. -/
def materialize_movements (s : CameraControl) (now : ℝ) : CameraControl :=
  let right := Vec3.normalize (Vec3.cross s.view_direction UP)
  let f := s.movements.forward.take now ms_map
  let r := s.movements.right.take now ms_map
  let u := s.movements.up.take now ms_map
  { s with
    position := s.position + f.1 • s.view_direction + r.1 • right + u.1 • UP
    movements := ⟨f.2, r.2, u.2⟩ }

/-- `look_to_rh(eye, dir, up)` (cgmath): right-handed look-to view matrix. -/
def lookToRh (eye dir up : Vec3) : Mat4 :=
  let f := Vec3.normalize dir
  let s := Vec3.normalize (Vec3.cross f up)
  let u := Vec3.cross s f
  ⟨s.x, s.y, s.z, -(Vec3.dot eye s),
   u.x, u.y, u.z, -(Vec3.dot eye u),
   -f.x, -f.y, -f.z, Vec3.dot eye f,
   0, 0, 0, 1⟩

/-- `snapshot(now)`: materializes movements, then returns the
`look_to_rh(position, view_direction, UP)` view matrix. Returns the matrix
together with the mutated state. -/
def snapshot (s : CameraControl) (now : ℝ) : Mat4 × CameraControl :=
  let s1 := s.materialize_movements now
  (lookToRh s1.position s1.view_direction UP, s1)

/-- `move_forw_backw(now, direction)`: materialize, then start/stop the
forward integrator. -/
def move_forw_backw (s : CameraControl) (now : ℝ) (direction : MovementDirection) :
    CameraControl :=
  let s1 := s.materialize_movements now
  match direction with
  | .none => { s1 with movements := { s1.movements with forward := .none } }
  | .positive => { s1 with movements := { s1.movements with forward := Change.positiveAt now } }
  | .negative => { s1 with movements := { s1.movements with forward := Change.negativeAt now } }

/-- `move_sideways(now, direction)`. -/
def move_sideways (s : CameraControl) (now : ℝ) (direction : MovementDirection) :
    CameraControl :=
  let s1 := s.materialize_movements now
  match direction with
  | .none => { s1 with movements := { s1.movements with right := .none } }
  | .positive => { s1 with movements := { s1.movements with right := Change.positiveAt now } }
  | .negative => { s1 with movements := { s1.movements with right := Change.negativeAt now } }

/-- `move_vertical(now, direction)`. -/
def move_vertical (s : CameraControl) (now : ℝ) (direction : MovementDirection) :
    CameraControl :=
  let s1 := s.materialize_movements now
  match direction with
  | .none => { s1 with movements := { s1.movements with up := .none } }
  | .positive => { s1 with movements := { s1.movements with up := Change.positiveAt now } }
  | .negative => { s1 with movements := { s1.movements with up := Change.negativeAt now } }

/-- Rust `f32::clamp(lo, hi)` for `lo ≤ hi` (no NaN in the real model). -/
def rustClamp (x lo hi : ℝ) : ℝ := max lo (min x hi)

/-- `rotate(now, delta_x, delta_y)`: materialize, scale the pixel deltas by
`ROTATION_MULTIPLIER`, clamp the new zenith to `[-0.49π, 0.49π]`, and apply
yaw about world-up composed with the clamped pitch about the right vector. -/
def rotate (s : CameraControl) (now delta_x delta_y : ℝ) : CameraControl :=
  let s1 := s.materialize_movements now
  let dx := delta_x * ROTATION_MULTIPLIER
  let dy := delta_y * ROTATION_MULTIPLIER
  let right := Vec3.normalize (Vec3.cross s1.view_direction UP)
  let current_zen := π * 0.5 - Real.arccos s1.view_direction.y
  let new_zen := rustClamp (current_zen + dy) (-(π * 0.49)) (π * 0.49)
  let zen_change := new_zen - current_zen
  { s1 with
    view_direction :=
      Mat3.identity * Mat3.fromAngleY dx * Mat3.fromAxisAngle right zen_change
        * s1.view_direction }

end CameraControl

/-- `CameraControl::default()`: position at the origin, looking along `-z`,
all movements idle. -/
def cameraDefault : CameraControl :=
  ⟨⟨0, 0, 0⟩, ⟨0, 0, -1⟩, ⟨.none, .none, .none⟩⟩

/-- A sequence of `rotate` calls, each given as `(now, delta_x, delta_y)`. -/
def rotateSeq (s : CameraControl) : List (ℝ × ℝ × ℝ) → CameraControl
  | [] => s
  | p :: ps => rotateSeq (s.rotate p.1 p.2.1 p.2.2) ps

/-- The zenith angle of a view direction, `π/2 - acos(view_direction.y)`. -/
def zenith (v : Vec3) : ℝ := π * 0.5 - Real.arccos v.y

/-! ## Vector algebra for the rotation invariant (C4) -/

lemma Vec3.dot_smul_left (a : ℝ) (p q : Vec3) :
    Vec3.dot (a • p) q = a * Vec3.dot p q := by
  simp [Vec3.dot]; ring

lemma Vec3.cross_smul_left (a : ℝ) (p q : Vec3) :
    Vec3.cross (a • p) q = a • Vec3.cross p q := by
  ext <;> simp [Vec3.cross] <;> ring

lemma Vec3.normSq_smul (a : ℝ) (p : Vec3) :
    Vec3.normSq (a • p) = a ^ 2 * Vec3.normSq p := by
  simp [Vec3.normSq]; ring

/-- The cross product is orthogonal to its second factor. -/
lemma Vec3.dot_cross_right (v k : Vec3) : Vec3.dot v (Vec3.cross k v) = 0 := by
  simp [Vec3.dot, Vec3.cross]; ring

/-- Lagrange identity for the cross product. -/
lemma Vec3.normSq_cross (p q : Vec3) :
    Vec3.normSq (Vec3.cross p q) = Vec3.normSq p * Vec3.normSq q - (Vec3.dot p q) ^ 2 := by
  simp [Vec3.normSq, Vec3.cross, Vec3.dot]; ring

/-- Vector triple product `(a × b) × a = (a⬝a) b - (b⬝a) a`. -/
lemma Vec3.cross_cross_self (a b : Vec3) :
    Vec3.cross (Vec3.cross a b) a = (Vec3.dot a a) • b + (-(Vec3.dot b a)) • a := by
  ext <;> simp [Vec3.cross, Vec3.dot] <;> ring

/-- Rodrigues form of the axis-angle rotation matrix applied to a vector. -/
lemma Mat3.fromAxisAngle_apply (k : Vec3) (θ : ℝ) (v : Vec3) :
    Mat3.fromAxisAngle k θ * v =
      (Real.cos θ) • v + (Real.sin θ) • Vec3.cross k v +
        ((1 - Real.cos θ) * Vec3.dot k v) • k := by
  ext <;> simp [Mat3.fromAxisAngle, Mat3.mulVec, Vec3.cross, Vec3.dot] <;> ring

lemma Mat3.fromAngleY_apply (θ : ℝ) (v : Vec3) :
    Mat3.fromAngleY θ * v =
      ⟨Real.cos θ * v.x + Real.sin θ * v.z, v.y,
        -(Real.sin θ) * v.x + Real.cos θ * v.z⟩ := by
  ext <;> simp [Mat3.fromAngleY, Mat3.mulVec]

/-- Yaw about the y axis preserves the squared norm. -/
lemma Mat3.normSq_fromAngleY (θ : ℝ) (v : Vec3) :
    Vec3.normSq (Mat3.fromAngleY θ * v) = Vec3.normSq v := by
  simp only [Mat3.fromAngleY_apply, Vec3.normSq]
  linear_combination (v.x * v.x + v.z * v.z) * Real.sin_sq_add_cos_sq θ

/-- Squared norm of a two-term combination with a vanishing third coefficient. -/
lemma Vec3.normSq_combo (a b : ℝ) (p q k : Vec3) :
    Vec3.normSq (a • p + b • q + (0 : ℝ) • k) =
      a ^ 2 * Vec3.normSq p + 2 * a * b * Vec3.dot p q + b ^ 2 * Vec3.normSq q := by
  simp [Vec3.normSq, Vec3.dot]; ring

lemma le_rustClamp (x lo hi : ℝ) : lo ≤ CameraControl.rustClamp x lo hi :=
  le_max_left _ _

lemma rustClamp_le (x lo hi : ℝ) (h : lo ≤ hi) : CameraControl.rustClamp x lo hi ≤ hi :=
  max_le h (min_le_right _ _)

/-- The view direction after one `rotate` call, in applied form: yaw applied
to the pitched vector. -/
lemma CameraControl.rotate_view_direction (s : CameraControl) (now dx dy : ℝ) :
    (s.rotate now dx dy).view_direction =
      Mat3.fromAngleY (dx * ROTATION_MULTIPLIER) *
        (Mat3.fromAxisAngle (Vec3.normalize (Vec3.cross s.view_direction UP))
          (CameraControl.rustClamp (zenith s.view_direction + dy * ROTATION_MULTIPLIER)
            (-(π * 0.49)) (π * 0.49) - zenith s.view_direction) * s.view_direction) := by
  simp only [CameraControl.rotate, CameraControl.materialize_movements, zenith]
  rw [Mat3.id_mul, Mat3.mul_mulVec]

set_option maxHeartbeats 1000000 in
/-- Key rotation lemma: from a unit view direction whose zenith lies in the
closed clamp interval, one `rotate` call keeps the squared norm at `1` and
moves the zenith exactly to the clamp of `zenith + delta_y * k`. -/
lemma rotate_zenith (s : CameraControl) (now dx dy : ℝ)
    (h1 : Vec3.normSq s.view_direction = 1)
    (h2 : -(π * 0.49) ≤ zenith s.view_direction)
    (h3 : zenith s.view_direction ≤ π * 0.49) :
    Vec3.normSq ((s.rotate now dx dy).view_direction) = 1 ∧
      zenith ((s.rotate now dx dy).view_direction) =
        CameraControl.rustClamp (zenith s.view_direction + dy * ROTATION_MULTIPLIER)
          (-(π * 0.49)) (π * 0.49) := by
  set v := s.view_direction with hv
  have h1' : v.x * v.x + v.y * v.y + v.z * v.z = 1 := h1
  have hy1 : -1 ≤ v.y := by
    nlinarith [mul_self_nonneg v.x, mul_self_nonneg v.z, mul_self_nonneg (v.y + 1)]
  have hy2 : v.y ≤ 1 := by
    nlinarith [mul_self_nonneg v.x, mul_self_nonneg v.z, mul_self_nonneg (v.y - 1)]
  have harc1 : π * 0.01 ≤ Real.arccos v.y := by
    have h3' := h3
    unfold zenith at h3'
    linarith
  have harc2 : Real.arccos v.y ≤ π * 0.99 := by
    have h2' := h2
    unfold zenith at h2'
    linarith
  have hylt : v.y < 1 := by
    rcases lt_or_eq_of_le hy2 with h | h
    · exact h
    · exfalso
      rw [h, Real.arccos_one] at harc1
      nlinarith [Real.pi_pos]
  have hygt : -1 < v.y := by
    rcases lt_or_eq_of_le hy1 with h | h
    · exact h
    · exfalso
      rw [← h, Real.arccos_neg_one] at harc2
      nlinarith [Real.pi_pos]
  have hxz : v.x * v.x + v.z * v.z = 1 - v.y * v.y := by linarith
  have hxzpos : 0 < v.x * v.x + v.z * v.z := by nlinarith
  have hc0 : Vec3.cross v UP = ⟨-v.z, 0, v.x⟩ := by
    ext <;> simp [Vec3.cross, UP]
  have hnormSqc0 : Vec3.normSq (Vec3.cross v UP) = v.x * v.x + v.z * v.z := by
    rw [hc0]; simp [Vec3.normSq]; ring
  set r := Vec3.norm (Vec3.cross v UP) with hrdef
  have hrpos : 0 < r := by
    rw [hrdef, Vec3.norm]
    exact Real.sqrt_pos.mpr (by rw [hnormSqc0]; exact hxzpos)
  have hrne : r ≠ 0 := ne_of_gt hrpos
  have hr2 : r * r = v.x * v.x + v.z * v.z := by
    rw [hrdef, Vec3.norm, Real.mul_self_sqrt (by rw [hnormSqc0]; linarith)]
    exact hnormSqc0
  have hrightnorm : Vec3.normSq (Vec3.normalize (Vec3.cross v UP)) = 1 := by
    rw [Vec3.normalize, Vec3.normSq_smul, ← hrdef, hnormSqc0]
    rw [div_pow, one_pow, div_mul_eq_mul_div, one_mul, div_eq_one_iff_eq (pow_ne_zero 2 hrne)]
    rw [sq, hr2]
  have hdotc0v : Vec3.dot (Vec3.cross v UP) v = 0 := by
    rw [hc0]; simp [Vec3.dot]; ring
  have hdotrv : Vec3.dot (Vec3.normalize (Vec3.cross v UP)) v = 0 := by
    rw [Vec3.normalize, Vec3.dot_smul_left, hdotc0v, mul_zero]
  have hcrossu : Vec3.cross (Vec3.normalize (Vec3.cross v UP)) v
      = (1 / r) • Vec3.cross (Vec3.cross v UP) v := by
    rw [Vec3.normalize, Vec3.cross_smul_left, ← hrdef]
  have huy : (Vec3.cross (Vec3.normalize (Vec3.cross v UP)) v).y = r := by
    rw [hcrossu, Vec3.cross_cross_self]
    simp [Vec3.dot, UP]
    field_simp
    nlinarith [hr2, h1']
  have hnormSqu : Vec3.normSq (Vec3.cross (Vec3.normalize (Vec3.cross v UP)) v) = 1 := by
    rw [Vec3.normSq_cross, hrightnorm, h1, hdotrv]
    norm_num
  have hdotvu : Vec3.dot v (Vec3.cross (Vec3.normalize (Vec3.cross v UP)) v) = 0 :=
    Vec3.dot_cross_right v _
  have hsinzen : Real.sin (zenith v) = v.y := by
    rw [zenith, show π * 0.5 - Real.arccos v.y = π / 2 - Real.arccos v.y by ring,
      Real.sin_pi_div_two_sub, Real.cos_arccos hy1 hy2]
  have hcoszen : Real.cos (zenith v) = r := by
    rw [zenith, show π * 0.5 - Real.arccos v.y = π / 2 - Real.arccos v.y by ring,
      Real.cos_pi_div_two_sub, Real.sin_arccos, hrdef, Vec3.norm, hnormSqc0]
    congr 1
    linear_combination -hxz
  set nz := CameraControl.rustClamp (zenith v + dy * ROTATION_MULTIPLIER)
    (-(π * 0.49)) (π * 0.49) with hnzdef
  set w := Mat3.fromAxisAngle (Vec3.normalize (Vec3.cross v UP)) (nz - zenith v) * v
    with hwdef
  have hview : (s.rotate now dx dy).view_direction =
      Mat3.fromAngleY (dx * ROTATION_MULTIPLIER) * w :=
    CameraControl.rotate_view_direction s now dx dy
  have hw : w = (Real.cos (nz - zenith v)) • v +
      (Real.sin (nz - zenith v)) • Vec3.cross (Vec3.normalize (Vec3.cross v UP)) v +
      ((1 - Real.cos (nz - zenith v)) * 0) • Vec3.normalize (Vec3.cross v UP) := by
    rw [hwdef, Mat3.fromAxisAngle_apply, hdotrv]
  have hwy : w.y = Real.sin nz := by
    have hy := congrArg Vec3.y hw
    simp only [Vec3.add_def, Vec3.smul_def] at hy
    rw [hy, huy, ← hsinzen, ← hcoszen,
      show nz = zenith v + (nz - zenith v) by ring, Real.sin_add]
    ring_nf
  have hwnormSq : Vec3.normSq w = 1 := by
    rw [hw, mul_zero, Vec3.normSq_combo, h1, hnormSqu, hdotvu]
    linear_combination Real.sin_sq_add_cos_sq (nz - zenith v)
  have hnz2 : nz ≤ π * 0.49 := rustClamp_le _ _ _ (by nlinarith [Real.pi_pos])
  have hnz1 : -(π * 0.49) ≤ nz := le_rustClamp _ _ _
  constructor
  · rw [hview, Mat3.normSq_fromAngleY, hwnormSq]
  · have hvy : ((s.rotate now dx dy).view_direction).y = Real.sin nz := by
      rw [hview, Mat3.fromAngleY_apply]
      exact hwy
    rw [zenith, hvy]
    have harcsin : Real.arccos (Real.sin nz) = π / 2 - nz := by
      rw [show Real.sin nz = Real.cos (π / 2 - nz) by rw [Real.cos_pi_div_two_sub]]
      exact Real.arccos_cos (by nlinarith [Real.pi_pos]) (by nlinarith [Real.pi_pos])
    rw [harcsin]
    ring

/-- One `rotate` call preserves the closed invariant: unit view direction and
zenith in `[-0.49π, 0.49π]`. -/
lemma rotate_step (s : CameraControl) (now dx dy : ℝ)
    (h1 : Vec3.normSq s.view_direction = 1)
    (h2 : -(π * 0.49) ≤ zenith s.view_direction)
    (h3 : zenith s.view_direction ≤ π * 0.49) :
    Vec3.normSq ((s.rotate now dx dy).view_direction) = 1 ∧
      -(π * 0.49) ≤ zenith ((s.rotate now dx dy).view_direction) ∧
      zenith ((s.rotate now dx dy).view_direction) ≤ π * 0.49 := by
  obtain ⟨ha, hb⟩ := rotate_zenith s now dx dy h1 h2 h3
  refine ⟨ha, ?_, ?_⟩
  · rw [hb]; exact le_rustClamp _ _ _
  · rw [hb]; exact rustClamp_le _ _ _ (by nlinarith [Real.pi_pos])

/-- The closed invariant is preserved by any sequence of `rotate` calls. -/
lemma rotateSeq_inv (l : List (ℝ × ℝ × ℝ)) :
    ∀ s : CameraControl, Vec3.normSq s.view_direction = 1 →
      -(π * 0.49) ≤ zenith s.view_direction → zenith s.view_direction ≤ π * 0.49 →
      Vec3.normSq ((rotateSeq s l).view_direction) = 1 ∧
        -(π * 0.49) ≤ zenith ((rotateSeq s l).view_direction) ∧
        zenith ((rotateSeq s l).view_direction) ≤ π * 0.49 := by
  induction l with
  | nil => exact fun s h1 h2 h3 => ⟨h1, h2, h3⟩
  | cons p ps ih =>
      intro s h1 h2 h3
      obtain ⟨ha, hb, hc⟩ := rotate_step s p.1 p.2.1 p.2.2 h1 h2 h3
      exact ih _ ha hb hc

/-- C4 counterexample: from the default camera state (unit view direction,
zenith `0`, strictly inside the open interval), a single `rotate` with
`delta_y = 10000` pixels drives the zenith to exactly `0.49π`, which is not
inside the open interval `(-0.49π, 0.49π)` the claim asserts. -/
theorem c4_zenith_counterexample :
    Vec3.norm cameraDefault.view_direction = 1 ∧
      -(π * 0.49) < zenith cameraDefault.view_direction ∧
      zenith cameraDefault.view_direction < π * 0.49 ∧
      ¬ zenith ((rotateSeq cameraDefault [(0, 0, 10000)]).view_direction) < π * 0.49 := by
  have hnormSq : Vec3.normSq cameraDefault.view_direction = 1 := by
    simp [cameraDefault, Vec3.normSq]
  have hzen : zenith cameraDefault.view_direction = 0 := by
    show π * 0.5 - Real.arccos 0 = 0
    rw [Real.arccos_zero]
    ring
  refine ⟨?_, ?_, ?_, ?_⟩
  · rw [Vec3.norm, hnormSq, Real.sqrt_one]
  · rw [hzen]; nlinarith [Real.pi_pos]
  · rw [hzen]; nlinarith [Real.pi_pos]
  · have hz := (rotate_zenith cameraDefault 0 0 10000 hnormSq
      (by rw [hzen]; nlinarith [Real.pi_pos]) (by rw [hzen]; nlinarith [Real.pi_pos])).2
    rw [hzen] at hz
    have hclamp : CameraControl.rustClamp (0 + 10000 * ROTATION_MULTIPLIER)
        (-(π * 0.49)) (π * 0.49) = π * 0.49 := by
      rw [CameraControl.rustClamp, ROTATION_MULTIPLIER]
      rw [min_eq_right (by nlinarith [Real.pi_pos])]
      exact max_eq_right (by nlinarith [Real.pi_pos])
    rw [hclamp] at hz
    show ¬ zenith ((cameraDefault.rotate 0 0 10000).view_direction) < π * 0.49
    rw [hz]
    exact lt_irrefl _

/-- C4 (amended): starting from a camera state whose view direction is unit
length with zenith in the open interval `(-0.49π, 0.49π)`, after any finite
sequence of `rotate` calls the view direction is still exactly unit length and
the zenith stays within the closed interval `[-0.49π, 0.49π]` (the clamp can
land exactly on the endpoints, so the open interval is not invariant). -/
theorem c4_rotate_invariant (l : List (ℝ × ℝ × ℝ)) (s : CameraControl)
    (h1 : Vec3.norm s.view_direction = 1)
    (h2 : -(π * 0.49) < zenith s.view_direction)
    (h3 : zenith s.view_direction < π * 0.49) :
    Vec3.norm ((rotateSeq s l).view_direction) = 1 ∧
      -(π * 0.49) ≤ zenith ((rotateSeq s l).view_direction) ∧
      zenith ((rotateSeq s l).view_direction) ≤ π * 0.49 := by
  rw [Vec3.norm, Real.sqrt_eq_one] at h1
  obtain ⟨ha, hb, hc⟩ := rotateSeq_inv l s h1 (le_of_lt h2) (le_of_lt h3)
  exact ⟨by rw [Vec3.norm, ha, Real.sqrt_one], hb, hc⟩

/-- C4 witness: the default camera state satisfies the hypotheses, and the
invariant holds after the empty rotation sequence. -/
theorem c4_rotate_invariant_witness :
    (Vec3.norm cameraDefault.view_direction = 1 ∧
        -(π * 0.49) < zenith cameraDefault.view_direction ∧
        zenith cameraDefault.view_direction < π * 0.49) ∧
      (Vec3.norm ((rotateSeq cameraDefault []).view_direction) = 1 ∧
        -(π * 0.49) ≤ zenith ((rotateSeq cameraDefault []).view_direction) ∧
        zenith ((rotateSeq cameraDefault []).view_direction) ≤ π * 0.49) := by
  have hnorm : Vec3.norm cameraDefault.view_direction = 1 := by
    rw [Vec3.norm]
    simp [cameraDefault, Vec3.normSq]
  have hzen : zenith cameraDefault.view_direction = 0 := by
    show π * 0.5 - Real.arccos 0 = 0
    rw [Real.arccos_zero]
    ring
  have h2 : -(π * 0.49) < zenith cameraDefault.view_direction := by
    rw [hzen]; nlinarith [Real.pi_pos]
  have h3 : zenith cameraDefault.view_direction < π * 0.49 := by
    rw [hzen]; nlinarith [Real.pi_pos]
  exact ⟨⟨hnorm, h2, h3⟩, c4_rotate_invariant [] cameraDefault hnorm h2 h3⟩

/-! ## Orbital hierarchy lemmas -/

/-- Normalizing the (already unit) up vector is the identity. -/
lemma Vec3.normalize_UP : Vec3.normalize UP = UP := by
  simp [Vec3.normalize, Vec3.norm, Vec3.normSq, UP]

/-- The explicit y-axis rotation matrix (standard form). -/
def yRotationM (θ : ℝ) : Mat4 :=
  ⟨Real.cos θ, 0, Real.sin θ, 0,
   0, 1, 0, 0,
   -Real.sin θ, 0, Real.cos θ, 0,
   0, 0, 0, 1⟩

lemma Mat4.fromAxisAngle_UP (θ : ℝ) : Mat4.fromAxisAngle UP θ = yRotationM θ := by
  unfold Mat4.fromAxisAngle yRotationM UP
  ext <;> simp

lemma cos_rustRem_two_pi (a : ℝ) : Real.cos (rustRem a (2 * π)) = Real.cos a := by
  have h : rustRem a (2 * π) = a - (rustTruncZ (a / (2 * π)) : ℝ) * (2 * π) := by
    unfold rustRem; ring
  rw [h, Real.cos_sub_int_mul_two_pi]

lemma sin_rustRem_two_pi (a : ℝ) : Real.sin (rustRem a (2 * π)) = Real.sin a := by
  have h : rustRem a (2 * π) =
      -((rustTruncZ (a / (2 * π)) : ℝ) * (2 * π) - a) := by
    unfold rustRem; ring
  rw [h, Real.sin_neg, Real.sin_int_mul_two_pi_sub, neg_neg]

/-- `Matrix4x4::rotate(UP, angle)` is exactly the y-axis rotation by `angle`:
the axis normalization is the identity on `UP` and the `% 2π` reduction is
absorbed by the periodicity of sine and cosine. -/
lemma Mat4.rotate_UP (angle : ℝ) : Mat4.rotate UP angle = yRotationM angle := by
  rw [Mat4.rotate, Vec3.normalize_UP, Mat4.fromAxisAngle_UP]
  unfold yRotationM
  rw [cos_rustRem_two_pi, sin_rustRem_two_pi]

/-- The spin component at elapsed time `0` is the identity. -/
lemma spinComponentM_zero (rp : ℝ) : spinComponentM 0 rp = Mat4.identity := by
  have : time_scaling (π * 2 * 0 / rp) = 0 := by simp [time_scaling]
  rw [spinComponentM, this, Mat4.rotate_zero]

/-- The tilt component with zero axial tilt is the identity. -/
lemma tiltComponentM_zero : tiltComponentM 0 = Mat4.identity := by
  rw [tiltComponentM, Mat4.rotate_zero]

/-- The orbit offset of a root body (zero parent distance, no parent radius)
is the identity. -/
lemma orbitOffsetM_zero_none (r : ℝ) : orbitOffsetM 0 r none = Mat4.identity := by
  have h : distance_scaling 0 = 0 := by
    simp [distance_scaling]
    exact Real.zero_rpow (by norm_num)
  simp [orbitOffsetM, h, Mat4.translate_zero]

/-- The `for child in children` loop over a constructed child list is the
concatenation of the children's own update runs. -/
lemma update_buffers_children_eq (cs : List SolarObjectInner) (t : ℝ)
    (view proj pm : Mat4) (pr : Option ℝ) :
    update_buffers_children (new_inner_children cs) t view proj pm pr =
      cs.flatMap fun c => update_buffers_inner (new_inner c false) t view proj pm pr := by
  induction cs with
  | nil => rfl
  | cons c rest ih => simp [new_inner_children, update_buffers_children, ih]

/-- C1: for every constructed node, elapsed time and parent frame, the world
transform written by the hierarchy update is
`parentWorldTransform * orbitRevolution * orbitOffset * tilt * spin * localScale`,
and the children are recursed with parent transform
`parentWorldTransform * orbitRevolution * orbitOffset` and with `parentRadius`
equal to this node's radius. -/
theorem c1_world_transform (r d : ℝ) (op : Option ℝ) (rp ti : ℝ)
    (cs : List SolarObjectInner) (b : Bool) (t : ℝ) (view proj pm : Mat4)
    (pr : Option ℝ) :
    ((update_buffers_inner (new_inner (.mk r d op rp ti cs) b) t view proj pm pr).head?.map
        NodeWrite.model) =
      some (pm * orbitRevolutionM op t * orbitOffsetM d r pr * tiltComponentM ti *
        spinComponentM t rp * localScaleM r) ∧
      (update_buffers_inner (new_inner (.mk r d op rp ti cs) b) t view proj pm pr).tail =
        cs.flatMap fun c =>
          update_buffers_inner (new_inner c false) t view proj
            (pm * orbitRevolutionM op t * orbitOffsetM d r pr) (some r) := by
  constructor
  · simp [new_inner, update_buffers_inner, Mat4.mul_identityM]
  · simp [new_inner, update_buffers_inner, update_buffers_children_eq]

/-- C6: a root body (no orbital period, zero parent distance, zero tilt) has
identity orbit-revolution component at every elapsed time, and at elapsed time
`0` its world transform is exactly the scaling matrix `scale(scaleFactor(R))`. -/
theorem c6_root_transform (r d rp ti : ℝ) (op : Option ℝ) (cs : List SolarObjectInner)
    (view proj : Mat4) (hd : d = 0) (hti : ti = 0) (hop : op = none) :
    (∀ t : ℝ, orbitRevolutionM op t = Mat4.identity) ∧
      ((update_buffers (new_inner (.mk r d op rp ti cs) true) 0 view proj).head?.map
          NodeWrite.model) = some (localScaleM r) := by
  subst hd hti hop
  constructor
  · intro t; rfl
  · simp [update_buffers, new_inner, update_buffers_inner, spinComponentM_zero,
      tiltComponentM_zero, orbitOffsetM_zero_none, orbitRevolutionM,
      Mat4.identity_mulM, Mat4.mul_identityM]

/-- C6 witness: a concrete sun-like root (radius 10000, rotation period 1 day,
no children) at elapsed time 0. -/
theorem c6_root_transform_witness :
    ((0 : ℝ) = 0 ∧ (0 : ℝ) = 0 ∧ (none : Option ℝ) = none) ∧
      ((∀ t : ℝ, orbitRevolutionM none t = Mat4.identity) ∧
        ((update_buffers (new_inner (.mk 10000 0 none 1 0 []) true) 0 Mat4.identity
            Mat4.identity).head?.map NodeWrite.model) = some (localScaleM 10000)) :=
  ⟨⟨rfl, rfl, rfl⟩,
   c6_root_transform 10000 0 1 0 none [] Mat4.identity Mat4.identity rfl rfl rfl⟩

/-! ## Spin component (C3) -/

/-- The spec's angular-speed convention, `angularSpeed(x) = x * 10`. -/
def angularSpeed (x : ℝ) : ℝ := x * 10

/-- Claimed spin transform, following the spec's words: a rotation about the
body's own rotation axis by `angularSpeed(elapsed / rotationPeriod)`. -/
def specSpinM (rotation_axis : Vec3) (elapsed rotation_period_days : ℝ) : Mat4 :=
  Mat4.rotate rotation_axis (angularSpeed (elapsed / rotation_period_days))

lemma rustTruncZ_of_nonneg_lt_one {x : ℝ} (h0 : 0 ≤ x) (h1 : x < 1) :
    rustTruncZ x = 0 := by
  rw [rustTruncZ, if_pos h0]
  exact Int.floor_eq_zero_iff.mpr ⟨h0, h1⟩

/-- C3 counterexample: for a body with rotation axis `(1,0,0)`, rotation period
1 day, at elapsed time `1/40`, the spin computed by the code (a rotation about
world-up by `10·2π·t/p`) differs from the spec's
`rotate(rotationAxis, angularSpeed(elapsed / rotationPeriod))`. -/
theorem c3_spin_counterexample :
    spinComponentM (1 / 40) 1 ≠ specSpinM ⟨1, 0, 0⟩ (1 / 40) 1 := by
  intro h
  have ha : spinComponentM (1 / 40) 1 = yRotationM (π / 2) := by
    have : time_scaling (π * 2 * (1 / 40) / 1) = π / 2 := by
      unfold time_scaling; ring
    rw [spinComponentM, this, Mat4.rotate_UP]
  have hb : Vec3.normalize ⟨1, 0, 0⟩ = ⟨1, 0, 0⟩ := by
    simp [Vec3.normalize, Vec3.norm, Vec3.normSq]
  have hc : rustRem (angularSpeed (1 / 40 / 1)) (2 * π) = 1 / 4 := by
    have h40 : angularSpeed (1 / 40 / 1) = 1 / 4 := by unfold angularSpeed; norm_num
    have hpos : (0 : ℝ) < 2 * π := by positivity
    have htr : rustTruncZ ((1 / 4) / (2 * π)) = 0 := by
      refine rustTruncZ_of_nonneg_lt_one (by positivity) ?_
      rw [div_lt_one hpos]
      nlinarith [Real.pi_gt_three]
    rw [h40, rustRem, htr]
    norm_num
  have h00 := congrArg Mat4.a00 h
  rw [ha] at h00
  unfold specSpinM Mat4.rotate at h00
  rw [hb, hc] at h00
  simp [yRotationM, Mat4.fromAxisAngle, Real.cos_pi_div_two] at h00

/-- C3 (amended): the spin component of every body's world transform is a
rotation about the world up axis `(0,1,0)` — not the body's own rotation axis,
which is loaded but unused by the renderer — by angle
`time_scaling(2π · elapsed / rotationPeriod)`, i.e. `angularSpeed` is applied
to the full phase `2π·elapsed/rotationPeriod` rather than to
`elapsed/rotationPeriod`. -/
theorem c3_spin_about_world_up (t rp : ℝ) :
    spinComponentM t rp = yRotationM (time_scaling (π * 2 * t / rp)) :=
  Mat4.rotate_UP _

/-! ## Normal matrices (C5) -/

/-- Claimed normal matrix following the spec's words: the inverse-transpose of
the upper 3×3 of the model-view matrix (`view * model`), negated exactly for
the root body. -/
def specNormalMatrix (view model : Mat4) (isRoot : Bool) : Mat3 :=
  if isRoot then
    Mat3.scaleV ⟨-1, -1, -1⟩ * Matrix3x3.to_mat3_inverse_transpose (view * model)
  else Matrix3x3.to_mat3_inverse_transpose (view * model)

/-- The spec's claimed normal matrix of a node write record. -/
def specNormalOfWrite (view : Mat4) (isRoot : Bool) (w : NodeWrite) : Mat3 :=
  specNormalMatrix view w.model isRoot

/-- Every write produced for a constructed child (and recursively for all its
descendants) carries the un-negated inverse-transpose normal matrix: the
`inverse_normals` flag is `false` below the root. -/
theorem update_children_normals :
    ∀ (cs : List SolarObjectInner) (t : ℝ) (view proj pm : Mat4) (pr : Option ℝ),
      ∀ w ∈ update_buffers_children (new_inner_children cs) t view proj pm pr,
        w.normal = Matrix3x3.to_mat3_inverse_transpose w.model
  | [], _, _, _, _, _ => by
      intro w hw
      simp [new_inner_children, update_buffers_children] at hw
  | c :: rest, t, view, proj, pm, pr => by
      intro w hw
      rw [new_inner_children, update_buffers_children] at hw
      rcases List.mem_append.mp hw with hin | hin
      · cases c with
        | mk rc dc opc rpc tic csc =>
            rw [new_inner, update_buffers_inner] at hin
            rcases List.mem_cons.mp hin with hweq | htail
            · subst hweq; rfl
            · exact update_children_normals csc t view proj _ _ w htail
      · exact update_children_normals rest t view proj pm pr w hin

/-- C5 (amended): in a full hierarchy update of a constructed scene, the root's
written normal matrix is the negated inverse-transpose of the upper 3×3 of its
model (world) matrix — not of the model-view matrix — and every other node's
normal matrix is the un-negated inverse-transpose of the upper 3×3 of its own
model matrix. -/
theorem c5_normal_from_model (s : SolarObjectInner) (t : ℝ) (view proj : Mat4) :
    ∃ h rest, update_buffers (new_inner s true) t view proj = h :: rest ∧
      h.normal = Mat3.scaleV ⟨-1, -1, -1⟩ * Matrix3x3.to_mat3_inverse_transpose h.model ∧
      ∀ w ∈ rest, w.normal = Matrix3x3.to_mat3_inverse_transpose w.model := by
  cases s with
  | mk r d op rp ti cs =>
      rw [update_buffers, new_inner, update_buffers_inner]
      refine ⟨_, _, rfl, rfl, ?_⟩
      intro w hw
      exact update_children_normals cs t view proj _ _ w hw

/-- Evaluation: the inverse-transpose of the (invertible) identity block. -/
lemma to_mat3_inverse_transpose_identity :
    Matrix3x3.to_mat3_inverse_transpose Mat4.identity = Mat3.identity := by
  rw [Matrix3x3.to_mat3_inverse_transpose]
  have hdet : (Mat4.upper3 Mat4.identity).det = 1 := by
    simp [Mat4.upper3, Mat4.identity, Mat3.det]
  rw [Mat3.invert, if_neg (by rw [hdet]; norm_num)]
  simp [Mat4.upper3, Mat4.identity, Mat3.det, Mat3.transpose, Mat3.identity]

/-- The root scene scales to the identity when the radius equals the reference
radius `10000` (since `(10000/10000)^0.4 = 1`). -/
lemma localScaleM_10000 : localScaleM 10000 = Mat4.identity := by
  have h : radius_scaling 10000 = 1 := by
    rw [radius_scaling, div_self (by norm_num : (10000 : ℝ) ≠ 0), Real.one_rpow]
  rw [localScaleM, h, Mat4.scaleV_one]

/-- The root's model matrix in the concrete one-body scene of the C5
counterexample is the identity. -/
lemma c5_scene_model_eval :
    Mat4.mul
        (Mat4.mul
          (Mat4.mul
            (Mat4.mul
              (Mat4.mul (Mat4.mul Mat4.identity (orbitRevolutionM none 0))
                (orbitOffsetM 0 10000 none))
              (tiltComponentM 0))
            (spinComponentM 0 1))
          (localScaleM 10000))
        Mat4.identity = Mat4.identity := by
  rw [orbitOffsetM_zero_none, tiltComponentM_zero, spinComponentM_zero,
    localScaleM_10000]
  show Mat4.mul (Mat4.mul (Mat4.mul (Mat4.mul (Mat4.mul (Mat4.mul Mat4.identity
    Mat4.identity) Mat4.identity) Mat4.identity) Mat4.identity) Mat4.identity)
    Mat4.identity = Mat4.identity
  simp [Mat4.mul_identityM]

/-- C5 counterexample: in a one-body scene with view matrix `scale(2,2,2)`, the
normal matrix the code writes for the root (computed from the model matrix) is
not the spec's inverse-transpose of the upper 3×3 of the model-view matrix:
the code writes `-1` where the spec's formula yields `-1/2`. -/
theorem c5_normal_counterexample :
    ((update_buffers (new_inner (.mk 10000 0 none 1 0 []) true) 0
        (Mat4.scaleV ⟨2, 2, 2⟩) Mat4.identity).head?.map NodeWrite.normal) ≠
      ((update_buffers (new_inner (.mk 10000 0 none 1 0 []) true) 0
        (Mat4.scaleV ⟨2, 2, 2⟩) Mat4.identity).head?.map
          (specNormalOfWrite (Mat4.scaleV ⟨2, 2, 2⟩) true)) := by
  rw [update_buffers, new_inner, update_buffers_inner]
  intro h
  simp only [List.head?_cons, Option.map_some', Option.some.injEq] at h
  rw [specNormalOfWrite, specNormalMatrix] at h
  have hmodel := c5_scene_model_eval
  simp only [Mat4.mulM_def] at h
  rw [hmodel] at h
  rw [to_mat3_inverse_transpose_identity] at h
  have hview : Mat4.mul (Mat4.scaleV ⟨2, 2, 2⟩) Mat4.identity = Mat4.scaleV ⟨2, 2, 2⟩ :=
    Mat4.mul_identityM _
  simp only [if_true] at h
  rw [hview] at h
  have hdet2 : (Mat4.upper3 (Mat4.scaleV ⟨2, 2, 2⟩)).det = 8 := by
    norm_num [Mat4.upper3, Mat4.scaleV, Mat3.det]
  have hinvt2 : Matrix3x3.to_mat3_inverse_transpose (Mat4.scaleV ⟨2, 2, 2⟩) =
      Mat3.scaleV ⟨1 / 2, 1 / 2, 1 / 2⟩ := by
    rw [Matrix3x3.to_mat3_inverse_transpose, Mat3.invert, if_neg (by rw [hdet2]; norm_num)]
    norm_num [Mat4.upper3, Mat4.scaleV, Mat3.det, Mat3.transpose, Mat3.scaleV]
  rw [hinvt2] at h
  have h00 := congrArg Mat3.a00 h
  simp [Mat3.mul, Mat3.scaleV, Mat3.identity] at h00

/-! ## Movement integrator lemmas -/

/-- Taking twice at the same timestamp: the second take yields zero and leaves
the state unchanged. -/
lemma Change.take_take (c : Change) (now : ℝ) (f : ℝ → ℝ) :
    ((c.take now f).2).take now f = (0, (c.take now f).2) := by
  cases c <;> simp [Change.take]

/-- Materializing twice at the same timestamp is the same as materializing once. -/
lemma CameraControl.materialize_materialize (s : CameraControl) (now : ℝ) :
    (s.materialize_movements now).materialize_movements now =
      s.materialize_movements now := by
  unfold CameraControl.materialize_movements
  simp only [Change.take_take]
  congr 1
  ext <;> simp

/-- Running `take` over a list of timestamps from a positive phase telescopes
to the mapped total elapsed time (final state keeps `init`, `last` becomes the
last timestamp of the run). -/
lemma takeRun_positive (ts : List ℝ) :
    ∀ init last : ℝ,
      takeRun (.positive init last) ms_map ts =
        (ms_map (ts.getLastD last - init) - ms_map (last - init),
         .positive init (ts.getLastD last)) := by
  induction ts with
  | nil => intro init last; simp [takeRun]
  | cons t ts ih =>
      intro init last
      simp only [takeRun, Change.take, ih init, List.getLastD_cons, Prod.mk.injEq]
      exact ⟨by ring, trivial⟩

/-- Negative-phase analogue of `takeRun_positive`. -/
lemma takeRun_negative (ts : List ℝ) :
    ∀ init last : ℝ,
      takeRun (.negative init last) ms_map ts =
        (-(ms_map (ts.getLastD last - init) - ms_map (last - init)),
         .negative init (ts.getLastD last)) := by
  induction ts with
  | nil => intro init last; simp [takeRun]
  | cons t ts ih =>
      intro init last
      simp only [takeRun, Change.take, ih init, List.getLastD_cons, Prod.mk.injEq]
      exact ⟨by ring, trivial⟩

/-- C2: for any start/stop pair with monotone timestamps and any intermediate
`take` calls, the increments between `start(t_start)` and the final take at
`t_stop` sum to `sign * f(t_stop - t_start)` with `f(t) = t^5` (partition
invariance). -/
theorem c2_partition_invariance (sgn : Bool) (t_start t_stop : ℝ) (ts : List ℝ)
    (hmono : List.Chain' (fun a b : ℝ => a ≤ b) (t_start :: (ts ++ [t_stop]))) :
    (takeRun (if sgn then Change.positiveAt t_start else Change.negativeAt t_start)
        ms_map (ts ++ [t_stop])).1 =
      (if sgn then (1 : ℝ) else -1) * ms_map (t_stop - t_start) := by
  cases sgn <;>
    simp [Change.positiveAt, Change.negativeAt, takeRun_positive, takeRun_negative,
      List.getLastD_concat, ms_map, sub_self]

/-- C2 witness: a concrete run, `start` at `0`, intermediate `take` at `1`,
final take at the stop time `2`, sums to `f(2) = 32`. -/
theorem c2_partition_invariance_witness :
    List.Chain' (fun a b : ℝ => a ≤ b) ((0 : ℝ) :: ([1] ++ [2])) ∧
      (takeRun (if true then Change.positiveAt (0 : ℝ) else Change.negativeAt 0)
          ms_map ([1] ++ [2])).1 =
        (if true then (1 : ℝ) else -1) * ms_map ((2 : ℝ) - 0) :=
  ⟨by norm_num, c2_partition_invariance true 0 2 [1] (by norm_num)⟩

/-- C7: `snapshot` called twice with the same `now` and no intervening mutation
returns the same view matrix and leaves the position unchanged. -/
theorem c7_snapshot_idempotent (s : CameraControl) (now : ℝ) :
    (CameraControl.snapshot (CameraControl.snapshot s now).2 now).1 =
        (CameraControl.snapshot s now).1 ∧
      (CameraControl.snapshot (CameraControl.snapshot s now).2 now).2.position =
        (CameraControl.snapshot s now).2.position := by
  simp [CameraControl.snapshot, CameraControl.materialize_materialize]

/-- C9: `take` on an idle integrator returns `0` (leaving it idle) for every
`now` and every mapper; stopping the forward axis puts it in the idle state;
and any number of subsequent `take` calls on an idle integrator accumulate `0`
and never leave the idle state. -/
theorem c9_idle_take_zero :
    (∀ (now : ℝ) (f : ℝ → ℝ), Change.none.take now f = (0, Change.none)) ∧
      (∀ (s : CameraControl) (now : ℝ),
        (s.move_forw_backw now .none).movements.forward = Change.none) ∧
      ∀ (f : ℝ → ℝ) (ts : List ℝ), takeRun Change.none f ts = (0, Change.none) := by
  refine ⟨fun now f => rfl, fun s now => rfl, fun f ts => ?_⟩
  induction ts with
  | nil => rfl
  | cons t ts ih => simp [takeRun, Change.take, ih]

/-- C10: converting a 4×4 matrix to a normal matrix is total and returns the
identity whenever the upper 3×3 block is not invertible (zero determinant),
instead of signalling an error. -/
theorem c10_inverse_transpose_total (m : Mat4) (h : (Mat4.upper3 m).det = 0) :
    Matrix3x3.to_mat3_inverse_transpose m = Mat3.identity := by
  simp [Matrix3x3.to_mat3_inverse_transpose, Mat3.invert, h]

/-- C10 witness: the zero matrix has a singular upper 3×3 block and is mapped
to the identity. -/
theorem c10_inverse_transpose_total_witness :
    (Mat4.upper3 ⟨0, 0, 0, 0, 0, 0, 0, 0, 0, 0, 0, 0, 0, 0, 0, 0⟩).det = 0 ∧
      Matrix3x3.to_mat3_inverse_transpose ⟨0, 0, 0, 0, 0, 0, 0, 0, 0, 0, 0, 0, 0, 0, 0, 0⟩ =
        Mat3.identity :=
  ⟨by simp [Mat4.upper3, Mat3.det],
   c10_inverse_transpose_total _ (by simp [Mat4.upper3, Mat3.det])⟩

/-! ## Restarting an integrator (C8) -/

/-- C8 counterexample: starting an already-started forward integrator in the
same direction is not a state no-op: with phase `Positive{init: 0, last: 0}`,
a `Positive` move call at `now = 1` changes the embedded start timestamp. -/
theorem c8_restart_counterexample :
    ((CameraControl.move_forw_backw
        ⟨⟨0, 0, 0⟩, ⟨0, 0, -1⟩, ⟨Change.positive 0 0, .none, .none⟩⟩ 1
        .positive).movements.forward) ≠ Change.positive 0 0 := by
  simp [CameraControl.move_forw_backw, CameraControl.materialize_movements,
    Change.positiveAt, Change.take]

/-- C8 (amended): starting an already-started integrator in the same direction
resets the phase to `Positive{init: now, last: now}` (it is not a state no-op),
after first materializing the pending movement into the position, so no
accumulated displacement is lost. -/
theorem c8_restart_resets_start (s : CameraControl) (now t0 l0 : ℝ)
    (h : s.movements.forward = Change.positive t0 l0) :
    (s.move_forw_backw now .positive).movements.forward = Change.positive now now ∧
      (s.move_forw_backw now .positive).position =
        (s.materialize_movements now).position := by
  constructor <;> rfl

/-- C8 witness: the amended statement at the concrete restart of
`c8_restart_counterexample`. -/
theorem c8_restart_resets_start_witness :
    (⟨⟨0, 0, 0⟩, ⟨0, 0, -1⟩,
        ⟨Change.positive 0 0, .none, .none⟩⟩ : CameraControl).movements.forward =
        Change.positive 0 0 ∧
      (((CameraControl.move_forw_backw
          ⟨⟨0, 0, 0⟩, ⟨0, 0, -1⟩, ⟨Change.positive 0 0, .none, .none⟩⟩ 1
          .positive).movements.forward) = Change.positive 1 1 ∧
        ((CameraControl.move_forw_backw
          ⟨⟨0, 0, 0⟩, ⟨0, 0, -1⟩, ⟨Change.positive 0 0, .none, .none⟩⟩ 1
          .positive).position) =
          (CameraControl.materialize_movements
            ⟨⟨0, 0, 0⟩, ⟨0, 0, -1⟩, ⟨Change.positive 0 0, .none, .none⟩⟩ 1).position) :=
  ⟨rfl, c8_restart_resets_start _ 1 0 0 rfl⟩

end
